import Mathlib

/-!
Shallow embedding of `src/analysis-service/log_parser.py` (the Log Condenser).

Strings are modelled as `List Char`.  Each Python regular expression is
embedded as a small backtracking matcher: a `Matcher` maps an input suffix to
the list of possible remainders after consuming a match of the pattern, in
the engine's backtracking preference order (alternation left-first, greedy
quantifiers longest-first, lazy quantifiers shortest-first).  `re.search`
existence is "some start position has a nonempty remainder list", and
`re.findall` / `re.finditer` counting takes, at the leftmost matching
position, the first remainder (the match the engine reports) and resumes
scanning at the match end.
-/

namespace LogParser

/-- Python `\s` (ASCII range): space, tab, newline, carriage return,
vertical tab, form feed. -/
def isPyWs (c : Char) : Bool :=
  c = ' ' || c = '\t' || c = '\n' || c = '\r' || c = '\x0b' || c = '\x0c'

/-- Python `\d` (ASCII range): decimal digits. -/
def isPyDigit (c : Char) : Bool := '0' ≤ c && c ≤ '9'

/-- Digits `5`-`9`, the class `[5-9]`. -/
def is59 (c : Char) : Bool := '5' ≤ c && c ≤ '9'

/-- Python `\w` (ASCII range): letters, digits, underscore. -/
def isPyWord (c : Char) : Bool := c.isAlpha || isPyDigit c || c = '_'

/-- The class `[\w\s]`. -/
def isPyWordOrWs (c : Char) : Bool := isPyWord c || isPyWs c

/-- `.` in a pattern without DOTALL: any character except newline. -/
def isNotNl (c : Char) : Bool := !(c = '\n')

/-- `str.strip()` restricted to the ASCII whitespace characters. -/
def pyStrip (cs : List Char) : List Char :=
  ((cs.dropWhile isPyWs).reverse.dropWhile isPyWs).reverse

/-- Decimal value of a digit string, as `int()` reads a group of `\d+`. -/
def digitsToNat (ds : List Char) : Nat :=
  ds.foldl (fun a c => 10 * a + (c.toNat - '0'.toNat)) 0

/-- Characters on which `str.splitlines()` breaks lines. -/
def isLineBreak (c : Char) : Bool :=
  c = '\n' || c = '\r' || c = '\x0b' || c = '\x0c' || c = '\x1c' ||
  c = '\x1d' || c = '\x1e' || c = '\x85' || c = '\u2028' || c = '\u2029'

/-- `str.splitlines()`: split on line-break characters, treating `\r\n` as a
single break; a trailing break does not create a final empty line. -/
def splitLinesAux (acc : List Char) : List Char → List (List Char)
  | [] => if acc.isEmpty then [] else [acc.reverse]
  | '\r' :: '\n' :: rest => acc.reverse :: splitLinesAux [] rest
  | c :: rest =>
      if isLineBreak c then acc.reverse :: splitLinesAux [] rest
      else splitLinesAux (c :: acc) rest

def splitLines (cs : List Char) : List (List Char) := splitLinesAux [] cs

/-- A matcher: input suffix to the remainders after a match, in backtracking
preference order. -/
abbrev Matcher : Type := List Char → List (List Char)

/-- The empty pattern. -/
def mEps : Matcher := fun cs => [cs]

/-- A single character satisfying a class. -/
def mSat (p : Char → Bool) : Matcher := fun cs =>
  match cs with
  | [] => []
  | c :: rest => if p c then [rest] else []

/-- Concatenation of two patterns (backtracking order preserved). -/
def mSeq (a b : Matcher) : Matcher := fun cs => (a cs).flatMap b

/-- Alternation, left alternative preferred. -/
def mAlt (a b : Matcher) : Matcher := fun cs => a cs ++ b cs

/-- Greedy `?`: prefer taking the pattern over skipping it. -/
def mOpt (a : Matcher) : Matcher := mAlt a mEps

/-- Greedy star over a character class: longest consumption first. -/
def mSatStar (p : Char → Bool) : Matcher
  | [] => [[]]
  | c :: rest => (if p c then mSatStar p rest else []) ++ [c :: rest]

/-- Lazy star over a character class: shortest consumption first. -/
def mSatStarL (p : Char → Bool) : Matcher
  | [] => [[]]
  | c :: rest => (c :: rest) :: (if p c then mSatStarL p rest else [])

/-- Greedy plus over a character class. -/
def mSatPlus (p : Char → Bool) : Matcher := mSeq (mSat p) (mSatStar p)

/-- Case-insensitive literal (all embedded patterns carry `re.IGNORECASE`). -/
def mLitCI (s : String) : Matcher :=
  s.data.foldr (fun c m => mSeq (mSat (fun d => d.toLower = c.toLower)) m) mEps

/-- Concatenation of a list of patterns. -/
def mCat (ms : List Matcher) : Matcher := ms.foldr mSeq mEps

/-- Negative lookahead on a character class, e.g. `(?!s)`. -/
def mNla (p : Char → Bool) : Matcher := fun cs =>
  match cs with
  | [] => [[]]
  | c :: rest => if p c then [] else [c :: rest]

/-- Does the pattern match starting exactly here? -/
def matchesAt (m : Matcher) (cs : List Char) : Bool := !(m cs).isEmpty

/-- `re.search`: does the pattern match at some start position? -/
def rSearch (m : Matcher) : List Char → Bool
  | [] => matchesAt m []
  | c :: rest => matchesAt m (c :: rest) || rSearch m rest

/-- One step list for `finditer` counting: at the leftmost matching position
take the engine's preferred remainder and resume there (advancing one
character on an empty match, as `finditer` does). -/
def countFrom (m : Matcher) : Nat → List Char → Nat
  | 0, _ => 0
  | fuel + 1, cs =>
      match (m cs).head? with
      | some rest =>
          if rest.length < cs.length then 1 + countFrom m fuel rest
          else
            match cs with
            | [] => 1
            | _ :: t => 1 + countFrom m fuel t
      | none =>
          match cs with
          | [] => 0
          | _ :: t => countFrom m fuel t

/-- `len(pattern.findall(cs))`: number of non-overlapping matches. -/
def countMatches (m : Matcher) (cs : List Char) : Nat :=
  countFrom m (cs.length + 1) cs

/-! ### The patterns of `log_parser.py`, transcribed one for one. -/

/-- `IGNORE_PATTERNS[0]`: `player\s+passes\s+priority`. -/
def patPassesPriority : Matcher :=
  mCat [mLitCI "player", mSatPlus isPyWs, mLitCI "passes", mSatPlus isPyWs,
        mLitCI "priority"]

/-- `IGNORE_PATTERNS[1]`: `untap\s+step`. -/
def patUntapStep : Matcher :=
  mCat [mLitCI "untap", mSatPlus isPyWs, mLitCI "step"]

/-- `IGNORE_PATTERNS[2]`: `draw\s+step`. -/
def patDrawStep : Matcher :=
  mCat [mLitCI "draw", mSatPlus isPyWs, mLitCI "step"]

/-- Core of `IGNORE_PATTERNS[3]`: `Turn\s+\d+:\s*` (to be anchored as
`^...$`). -/
def patBareTurn : Matcher :=
  mCat [mLitCI "turn", mSatPlus isPyWs, mSatPlus isPyDigit,
        mSat (fun c => c = ':'), mSatStar isPyWs]

/-- `re.search` of the fully anchored `^Turn\s+\d+:\s*$` (no MULTILINE): a
match must start at position 0 and end at the end of the string, or just
before a final newline. -/
def searchBareTurnHeader (cs : List Char) : Bool :=
  (patBareTurn cs).any (fun r => r.isEmpty || r = ['\n'])

/-- `EXTRA_DRAW_PATTERN`:
`draw(s)?\s+(an?\s+)?(additional|extra|\d+)\s+card|draw\s+\d+\s+card`. -/
def patExtraDraw : Matcher :=
  mAlt
    (mCat [mLitCI "draw", mOpt (mLitCI "s"), mSatPlus isPyWs,
           mOpt (mCat [mLitCI "a", mOpt (mLitCI "n"), mSatPlus isPyWs]),
           mAlt (mLitCI "additional") (mAlt (mLitCI "extra") (mSatPlus isPyDigit)),
           mSatPlus isPyWs, mLitCI "card"])
    (mCat [mLitCI "draw", mSatPlus isPyWs, mSatPlus isPyDigit,
           mSatPlus isPyWs, mLitCI "card"])

/-- `LIFE_CHANGE`:
`life\s+(total\s+)?(change|loss|gain|to)|(\d+)\s+life|loses?\s+\d+\s+life|gains?\s+\d+\s+life`. -/
def patLifeChange : Matcher :=
  mAlt
    (mCat [mLitCI "life", mSatPlus isPyWs,
           mOpt (mCat [mLitCI "total", mSatPlus isPyWs]),
           mAlt (mLitCI "change")
                (mAlt (mLitCI "loss") (mAlt (mLitCI "gain") (mLitCI "to")))])
    (mAlt
      (mCat [mSatPlus isPyDigit, mSatPlus isPyWs, mLitCI "life"])
      (mAlt
        (mCat [mLitCI "lose", mOpt (mLitCI "s"), mSatPlus isPyWs,
               mSatPlus isPyDigit, mSatPlus isPyWs, mLitCI "life"])
        (mCat [mLitCI "gain", mOpt (mLitCI "s"), mSatPlus isPyWs,
               mSatPlus isPyDigit, mSatPlus isPyWs, mLitCI "life"])))

/-- `([5-9]|\d{2,})`: one digit 5-9, or at least two digits (greedy). -/
def patHighNum : Matcher :=
  mAlt (mSat is59) (mCat [mSat isPyDigit, mSatPlus isPyDigit])

/-- `SPELL_CAST_HIGH_CMC`:
`cast(s|ing)?\s+.*?(?:\(?\s*CMC\s*([5-9]|\d{2,})|\(([5-9]|\d{2,})\s*\))|CMC\s*([5-9]|\d{2,})`. -/
def patSpellCastHighCmc : Matcher :=
  mAlt
    (mCat [mLitCI "cast", mOpt (mAlt (mLitCI "s") (mLitCI "ing")),
           mSatPlus isPyWs, mSatStarL isNotNl,
           mAlt
             (mCat [mOpt (mSat (fun c => c = '(')), mSatStar isPyWs,
                    mLitCI "cmc", mSatStar isPyWs, patHighNum])
             (mCat [mSat (fun c => c = '('), patHighNum, mSatStar isPyWs,
                    mSat (fun c => c = ')')])])
    (mCat [mLitCI "cmc", mSatStar isPyWs, patHighNum])

/-- `ZONE_CHANGE`:
`graveyard\s*->\s*battlefield|graveyard\s+to\s+battlefield|put.*from.*graveyard.*onto.*battlefield`. -/
def patZoneChange : Matcher :=
  mAlt
    (mCat [mLitCI "graveyard", mSatStar isPyWs, mLitCI "->", mSatStar isPyWs,
           mLitCI "battlefield"])
    (mAlt
      (mCat [mLitCI "graveyard", mSatPlus isPyWs, mLitCI "to",
             mSatPlus isPyWs, mLitCI "battlefield"])
      (mCat [mLitCI "put", mSatStar isNotNl, mLitCI "from", mSatStar isNotNl,
             mLitCI "graveyard", mSatStar isNotNl, mLitCI "onto",
             mSatStar isNotNl, mLitCI "battlefield"]))

/-- `WIN_CONDITION`:
`wins?\s+the\s+game|game\s+over|winner|wins\s+the\s+match`. -/
def patWinCondition : Matcher :=
  mAlt
    (mCat [mLitCI "win", mOpt (mLitCI "s"), mSatPlus isPyWs, mLitCI "the",
           mSatPlus isPyWs, mLitCI "game"])
    (mAlt
      (mCat [mLitCI "game", mSatPlus isPyWs, mLitCI "over"])
      (mAlt (mLitCI "winner")
            (mCat [mLitCI "wins", mSatPlus isPyWs, mLitCI "the",
                   mSatPlus isPyWs, mLitCI "match"])))

/-- The inline pattern `cast.*\s+\((\d+)\)` of `_classify_line` (`re.I`). -/
def patCastParen : Matcher :=
  mCat [mLitCI "cast", mSatStar isNotNl, mSatPlus isPyWs,
        mSat (fun c => c = '('), mSatPlus isPyDigit, mSat (fun c => c = ')')]

/-- `MANA_PRODUCED`:
`(?:adds?|produces?|tap(s|ped)?\s+for)\s+[\w\s]*mana|(\d+)\s+mana\s+produced`. -/
def patManaProduced : Matcher :=
  mAlt
    (mCat [mAlt (mCat [mLitCI "add", mOpt (mLitCI "s")])
                (mAlt (mCat [mLitCI "produce", mOpt (mLitCI "s")])
                      (mCat [mLitCI "tap",
                             mOpt (mAlt (mLitCI "s") (mLitCI "ped")),
                             mSatPlus isPyWs, mLitCI "for"])),
           mSatPlus isPyWs, mSatStar isPyWordOrWs, mLitCI "mana"])
    (mCat [mSatPlus isPyDigit, mSatPlus isPyWs, mLitCI "mana",
           mSatPlus isPyWs, mLitCI "produced"])

/-- The inline pattern `tap(s|ped)?\s+.*?\s+for` of `_mana_per_turn`
(`re.I`). -/
def patTapsFor : Matcher :=
  mCat [mLitCI "tap", mOpt (mAlt (mLitCI "s") (mLitCI "ped")),
        mSatPlus isPyWs, mSatStarL isNotNl, mSatPlus isPyWs, mLitCI "for"]

/-- The word pattern of the generic fallback `\bcasts?\s+` (without the
leading word boundary, handled by the search below). -/
def patCastWord : Matcher :=
  mCat [mLitCI "cast", mOpt (mLitCI "s"), mSatPlus isPyWs]

/-- `re.search(r"\bcasts?\s+", line, re.I)`: since the pattern starts with a
word character, `\b` holds exactly when the previous character is absent or
not a word character. -/
def searchCastFallbackAux : Option Char → List Char → Bool
  | _, [] => false
  | prev, c :: rest =>
      ((match prev with
        | none => true
        | some d => !isPyWord d) && matchesAt patCastWord (c :: rest)) ||
      searchCastFallbackAux (some c) rest

def searchCastFallback (cs : List Char) : Bool := searchCastFallbackAux none cs

/-! ### Group-extracting scanners (patterns whose matched digits are used). -/

/-- Consume a case-insensitive literal at the head, returning the rest. -/
def litCIAt : List Char → List Char → Option (List Char)
  | [], cs => some cs
  | _ :: _, [] => none
  | l :: ls, c :: cs => if c.toLower = l.toLower then litCIAt ls cs else none

/-- `\((\d+)\)` at the head position: the parenthesized digit group. The
group `\d+` is greedy and must be followed by `)`, so it is the maximal
digit run after `(`. -/
def parenDigitsAt (cs : List Char) : Option Nat :=
  match cs with
  | '(' :: rest =>
      match rest.takeWhile isPyDigit with
      | [] => none
      | ds =>
          match rest.drop ds.length with
          | ')' :: _ => some (digitsToNat ds)
          | _ => none
  | _ => none

/-- `re.search(r"\((\d+)\)", line)` followed by `int(m.group(1))`: the first
parenthesized number of the line, if any. -/
def firstParenNum : List Char → Option Nat
  | [] => none
  | c :: rest =>
      match parenDigitsAt (c :: rest) with
      | some n => some n
      | none => firstParenNum rest

/-- `TURN_LINE` = `^Turn\s+(\d+)` (IGNORECASE, MULTILINE) at the head
position; the components have disjoint character classes, so the greedy
quantifiers consume maximal runs. Returns the turn number and the rest
after the match. -/
def matchTurnAt (cs : List Char) : Option (Nat × List Char) :=
  match litCIAt ['t', 'u', 'r', 'n'] cs with
  | none => none
  | some r1 =>
      match r1.takeWhile isPyWs with
      | [] => none
      | ws =>
          let r2 := r1.drop ws.length
          match r2.takeWhile isPyDigit with
          | [] => none
          | ds => some (digitsToNat ds, r2.drop ds.length)

/-- `TURN_LINE.finditer(log)` as used by `_turn_ranges`: scan left to right;
at each position that starts the string or follows a newline, try the
anchored pattern; on a match, emit `(turn_number, offset)` and resume at the
match end (the last matched character is a digit, so the resume position is
never at a line start until the next newline). -/
def turnRangesAux (fuel : Nat) (atStart : Bool) (off : Nat)
    (cs : List Char) : List (Nat × Nat) :=
  match fuel with
  | 0 => []
  | f + 1 =>
      match cs with
      | [] => []
      | c :: rest =>
          if atStart then
            match matchTurnAt (c :: rest) with
            | some (n, r) =>
                (n, off) ::
                  turnRangesAux f false (off + ((c :: rest).length - r.length)) r
            | none => turnRangesAux f (c = '\n') (off + 1) rest
          else turnRangesAux f (c = '\n') (off + 1) rest

/-- `_turn_ranges`: the list of `(turn_number, start_offset)` pairs. -/
def turnRanges (log : List Char) : List (Nat × Nat) :=
  turnRangesAux (log.length + 1) true 0 log

/-- `log[start:end]`. -/
def slice (log : List Char) (s e : Nat) : List Char := (log.drop s).take (e - s)

/-- Pair each `(turn, start)` with the next start, or the transcript length
for the last one — the `end` computed inside both aggregator loops. -/
def attachEnds (len : Nat) : List (Nat × Nat) → List (Nat × Nat × Nat)
  | [] => []
  | [(n, s)] => [(n, s, len)]
  | (n, s) :: (m, s2) :: rest => (n, s, s2) :: attachEnds len ((m, s2) :: rest)

/-- The spans both aggregators iterate over. -/
def spansOf (log : List Char) : List (Nat × Nat × Nat) :=
  attachEnds log.length (turnRanges log)

/-- Python `dict` assignment `d[k] = v` on an insertion-ordered association
list: replace in place if the key exists, else append. -/
def dinsert (k : Nat) (v : α) : List (Nat × α) → List (Nat × α)
  | [] => [(k, v)]
  | (k₁, v₁) :: rest =>
      if k₁ = k then (k, v) :: rest else (k₁, v₁) :: dinsert k v rest

/-- Python `d.get(k)`. -/
def dlookup (k : Nat) : List (Nat × α) → Option α
  | [] => none
  | (k₁, v₁) :: rest => if k₁ = k then some v₁ else dlookup k rest

/-- The value `{"mana_events": count}` stored by `_mana_per_turn`. -/
structure ManaInfo where
  mana_events : Nat
  deriving Repr, DecidableEq

/-- The per-chunk count of `_mana_per_turn`: `len(MANA_PRODUCED.findall(chunk))`
plus `len(re.findall(r"tap(s|ped)?\s+.*?\s+for", chunk, re.I))`. -/
def manaChunkCount (chunk : List Char) : Nat :=
  countMatches patManaProduced chunk + countMatches patTapsFor chunk

/-- `_mana_per_turn`. -/
def manaPerTurn (log : List Char) : List (Nat × ManaInfo) :=
  (spansOf log).foldl
    (fun acc sp => dinsert sp.1 ⟨manaChunkCount (slice log sp.2.1 sp.2.2)⟩ acc)
    []

/-- Shared head of the two draw patterns, `draws?\s+`: the optional `s` and
the following `\s+` have disjoint follow sets, so consumption is forced. -/
def drawHeadAt (cs : List Char) : Option (List Char) :=
  match litCIAt ['d', 'r', 'a', 'w'] cs with
  | none => none
  | some r1 =>
      let r2 := match r1 with
                | c :: rest => if c.toLower = 's' then rest else r1
                | [] => r1
      match r2.takeWhile isPyWs with
      | [] => none
      | ws => some (r2.drop ws.length)

/-- `draws?\s+(\d+)\s+cards?` at the head position, returning the numeric
group and the rest after the match (trailing `s` greedy). -/
def matchDrawNumAt (cs : List Char) : Option (Nat × List Char) :=
  match drawHeadAt cs with
  | none => none
  | some r2 =>
      match r2.takeWhile isPyDigit with
      | [] => none
      | ds =>
          let r3 := r2.drop ds.length
          match r3.takeWhile isPyWs with
          | [] => none
          | ws =>
              match litCIAt ['c', 'a', 'r', 'd'] (r3.drop ws.length) with
              | none => none
              | some r4 =>
                  match r4 with
                  | c :: rest =>
                      if c.toLower = 's' then some (digitsToNat ds, rest)
                      else some (digitsToNat ds, r4)
                  | [] => some (digitsToNat ds, r4)

/-- `draws?\s+(?:a\s+)?card(?!s)` at the head position (the article branch
is tried first, as the engine does), returning the rest after the match. -/
def matchDrawOneAt (cs : List Char) : Option (List Char) :=
  match drawHeadAt cs with
  | none => none
  | some r2 =>
      let afterArticle :=
        match litCIAt ['a'] r2 with
        | none => none
        | some ra =>
            match ra.takeWhile isPyWs with
            | [] => none
            | ws => some (ra.drop ws.length)
      let tailOf := fun (r : List Char) =>
        match litCIAt ['c', 'a', 'r', 'd'] r with
        | none => none
        | some r4 =>
            match r4 with
            | c :: _ => if c.toLower = 's' then none else some r4
            | [] => some r4
      match afterArticle with
      | some ra =>
          match tailOf ra with
          | some r4 => some r4
          | none => tailOf r2
      | none => tailOf r2

/-- `sum(int(m) for m in re.findall(r"draws?\s+(\d+)\s+cards?", chunk, re.IGNORECASE))`. -/
def drawNumSumAux (fuel : Nat) (cs : List Char) : Nat :=
  match fuel with
  | 0 => 0
  | f + 1 =>
      match cs with
      | [] => 0
      | c :: rest =>
          match matchDrawNumAt (c :: rest) with
          | some (n, r) => n + drawNumSumAux f r
          | none => drawNumSumAux f rest

def drawNumSum (cs : List Char) : Nat := drawNumSumAux (cs.length + 1) cs

/-- `len(re.findall(r"draws?\s+(?:a\s+)?card(?!s)", chunk, re.IGNORECASE))`. -/
def drawOneCountAux (fuel : Nat) (cs : List Char) : Nat :=
  match fuel with
  | 0 => 0
  | f + 1 =>
      match cs with
      | [] => 0
      | c :: rest =>
          match matchDrawOneAt (c :: rest) with
          | some r => 1 + drawOneCountAux f r
          | none => drawOneCountAux f rest

def drawOneCount (cs : List Char) : Nat := drawOneCountAux (cs.length + 1) cs

/-- The per-chunk count of `_cards_drawn_per_turn`: numeric draws summed plus
singular draws counted. -/
def cardsChunkCount (chunk : List Char) : Nat :=
  drawNumSum chunk + drawOneCount chunk

/-- `_cards_drawn_per_turn`. -/
def cardsDrawnPerTurn (log : List Char) : List (Nat × Nat) :=
  (spansOf log).foldl
    (fun acc sp => dinsert sp.1 (cardsChunkCount (slice log sp.2.1 sp.2.2)) acc)
    []

/-! ### The classifier and the orchestrator. -/

/-- `_should_ignore`: the loop over `IGNORE_PATTERNS` unrolled.  Only the
third pattern string, `draw\s+step`, contains the substring `"draw"`, so the
extra-draw exception applies to it alone. -/
def shouldIgnore (line : List Char) : Bool :=
  let stripped := pyStrip line
  if stripped.isEmpty then true
  else if rSearch patPassesPriority stripped then true
  else if rSearch patUntapStep stripped then true
  else if rSearch patDrawStep stripped then
    if rSearch patExtraDraw stripped then false else true
  else if searchBareTurnHeader stripped then true
  else false

/-- The five event kinds. -/
inductive EventKind where
  | life_change
  | spell_cast_high_cmc
  | zone_change_gy_to_bf
  | win_condition
  | spell_cast
  deriving Repr, DecidableEq

/-- `if m and int(m.group(1)) >= 5` for `m = re.search(r"\((\d+)\)", line)`. -/
def parenGe5 (line : List Char) : Bool :=
  match firstParenNum line with
  | some n => 5 ≤ n
  | none => false

/-- The tail of `_classify_line` past the high-CMC block: zone change, win
condition, then the generic cast fallback. -/
def classifyRest (line : List Char) : Option EventKind :=
  if rSearch patZoneChange line then some .zone_change_gy_to_bf
  else if rSearch patWinCondition line then some .win_condition
  else if searchCastFallback line then some .spell_cast
  else none

/-- `_classify_line`.  The high-CMC `if` block returns only on its two inner
conditions; otherwise control falls through to the remaining checks. -/
def classifyLine (line : List Char) : Option EventKind :=
  if shouldIgnore line then none
  else if rSearch patLifeChange line then some .life_change
  else if rSearch patSpellCastHighCmc line || rSearch patCastParen line then
    if parenGe5 line then some .spell_cast_high_cmc
    else if rSearch patSpellCastHighCmc line then some .spell_cast_high_cmc
    else classifyRest line
  else classifyRest line

/-- One kept event: `{"type": ..., "line": line.strip()[:200]}`. -/
structure KeptEvent where
  type : EventKind
  line : List Char
  deriving Repr, DecidableEq

/-- The output record of `condense`. -/
structure CondensedSummary where
  kept_events : List KeptEvent
  mana_per_turn : List (Nat × ManaInfo)
  cards_drawn_per_turn : List (Nat × Nat)
  turn_count : Nat
  deriving Repr, DecidableEq

/-- `max(turn_ranges, key=lambda t: t[0])` on a nonempty list: Python keeps
the current best and replaces it only on a strictly greater key, so the
first maximum wins. -/
def pyMaxByFst : List (Nat × Nat) → Option (Nat × Nat)
  | [] => none
  | p :: rest =>
      some (rest.foldl (fun best q => if best.1 < q.1 then q else best) p)

/-- `condense`. -/
def condense (raw_log : List Char) : CondensedSummary :=
  let kept := (splitLines raw_log).filterMap (fun line =>
    match classifyLine line with
    | some k => some ⟨k, (pyStrip line).take 200⟩
    | none => none)
  { kept_events := kept
    mana_per_turn := manaPerTurn raw_log
    cards_drawn_per_turn := cardsDrawnPerTurn raw_log
    turn_count :=
      match pyMaxByFst (turnRanges raw_log) with
      | some p => p.1
      | none => 0 }

/-! ### Derived forms used to state the claims. -/

/-- The effective high-CMC rule of `_classify_line`: the block returns
`spell_cast_high_cmc` exactly when `SPELL_CAST_HIGH_CMC` matches, or the
inline `cast.*\s+\((\d+)\)` pattern matches and the first parenthesized
number of the line is at least 5. -/
def ruleHighCmc (line : List Char) : Bool :=
  rSearch patSpellCastHighCmc line ||
    (rSearch patCastParen line && parenGe5 line)

/-- Rules 2-6 of the classifier as an ordered first-match chain (no noise
filter). -/
def classifyKeep (line : List Char) : Option EventKind :=
  if rSearch patLifeChange line then some .life_change
  else if ruleHighCmc line then some .spell_cast_high_cmc
  else if rSearch patZoneChange line then some .zone_change_gy_to_bf
  else if rSearch patWinCondition line then some .win_condition
  else if searchCastFallback line then some .spell_cast
  else none

/-- The whole decision procedure as an ordered first-match chain: structural
noise filter first, then rules 2-6. -/
def classifyRules (line : List Char) : Option EventKind :=
  if shouldIgnore line then none else classifyKeep line

/-- Maximum of a list of naturals (0 for the empty list). -/
def listMax (ns : List Nat) : Nat := ns.foldr max 0

/-- Modelled from claim C4's wording: "the line references casting
something". -/
def specC4ReferencesCasting (line : List Char) : Bool :=
  rSearch (mLitCI "cast") line

/-- Modelled from claim C4's wording: "an explicit CMC N annotation with
N ≥ 5 or multi-digit". -/
def specC4CmcHighNum (line : List Char) : Bool :=
  rSearch (mCat [mLitCI "cmc", mSatStar isPyWs, patHighNum]) line

/-- Modelled from claim C4's wording: the classifier returns
`spell_cast_high_cmc` "exactly when the line references casting something
whose associated mana value is 5 or greater, detected either via an
explicit CMC N annotation with N ≥ 5 or multi-digit, or via a parenthesized
numeric suffix on the line interpreted as mana value ≥ 5". -/
def specC4HighCmc (line : List Char) : Bool :=
  specC4ReferencesCasting line && (specC4CmcHighNum line || parenGe5 line)

/-- Modelled from claim C5's wording: the line "contains the literal token
life adjacent to a number (in either order, e.g. 38 life or life 38)". -/
def specC5LifeNumAdjacent (line : List Char) : Bool :=
  rSearch (mCat [mSatPlus isPyDigit, mSatPlus isPyWs, mLitCI "life"]) line ||
  rSearch (mCat [mLitCI "life", mSatPlus isPyWs, mSatPlus isPyDigit]) line

/-! ### Helper lemmas. -/

theorem dlookup_dinsert {α : Type} (k k₁ : Nat) (v : α) (d : List (Nat × α)) :
    dlookup k (dinsert k₁ v d) = if k₁ = k then some v else dlookup k d := by
  induction d with
  | nil => simp [dinsert, dlookup]
  | cons p rest ih =>
      obtain ⟨k₂, v₂⟩ := p
      by_cases h : k₂ = k₁
      · subst h
        simp only [dinsert, if_pos rfl, dlookup]
        by_cases h2 : k₂ = k <;> simp [h2]
      · simp only [dinsert, if_neg h, dlookup]
        by_cases h2 : k₂ = k
        · subst h2
          have h' : ¬ k₁ = k₂ := fun e => h e.symm
          simp [h']
        · simp [h2, ih]

theorem dlookup_foldl_dinsert {α β : Type} (key : β → Nat) (f : β → α) :
    ∀ (l : List β) (init : List (Nat × α)) (k : Nat),
      dlookup k (l.foldl (fun acc b => dinsert (key b) (f b) acc) init) =
        (match l.reverse.find? (fun b => key b == k) with
         | some b => some (f b)
         | none => dlookup k init) := by
  intro l
  induction l with
  | nil => intro init k; simp
  | cons b t ih =>
      intro init k
      simp only [List.foldl_cons, List.reverse_cons, List.find?_append]
      rw [ih]
      cases h : t.reverse.find? (fun x => key x == k) with
      | some c => simp [Option.or]
      | none =>
          simp only [Option.or, List.find?]
          by_cases hk : key b = k
          · simp [hk, dlookup_dinsert]
          · have : (key b == k) = false := by simp [hk]
            simp [this, dlookup_dinsert, hk]

theorem map_fst_dinsert {α : Type} (k : Nat) (v : α) (d : List (Nat × α)) :
    (dinsert k v d).map Prod.fst =
      (if k ∈ d.map Prod.fst then d.map Prod.fst else d.map Prod.fst ++ [k]) := by
  induction d with
  | nil => simp [dinsert]
  | cons p rest ih =>
      obtain ⟨k₁, v₁⟩ := p
      by_cases h : k₁ = k
      · subst h; simp [dinsert]
      · have h' : ¬ k = k₁ := fun e => h e.symm
        simp only [dinsert, if_neg h, List.map_cons, List.mem_cons, ih]
        by_cases h2 : k ∈ rest.map Prod.fst <;> simp [h2, h']

theorem map_fst_foldl_dinsert {α γ β : Type} (key : β → Nat) (f : β → α) (g : β → γ) :
    ∀ (l : List β) (init₁ : List (Nat × α)) (init₂ : List (Nat × γ)),
      init₁.map Prod.fst = init₂.map Prod.fst →
      (l.foldl (fun acc b => dinsert (key b) (f b) acc) init₁).map Prod.fst =
        (l.foldl (fun acc b => dinsert (key b) (g b) acc) init₂).map Prod.fst := by
  intro l
  induction l with
  | nil => intro i₁ i₂ h; simpa using h
  | cons b t ih =>
      intro i₁ i₂ h
      simp only [List.foldl_cons]
      apply ih
      rw [map_fst_dinsert, map_fst_dinsert, h]

theorem dlookup_isSome_iff {α : Type} (k : Nat) (d : List (Nat × α)) :
    (dlookup k d).isSome = true ↔ k ∈ d.map Prod.fst := by
  induction d with
  | nil => simp [dlookup]
  | cons p rest ih =>
      obtain ⟨k₁, v₁⟩ := p
      by_cases h : k₁ = k
      · subst h; simp [dlookup]
      · have h' : ¬ k = k₁ := fun e => h e.symm
        simp [dlookup, h, h', ih]

theorem le_listMax (ns : List Nat) (n : Nat) (h : n ∈ ns) : n ≤ listMax ns := by
  induction ns with
  | nil => cases h
  | cons m t ih =>
      simp only [listMax, List.foldr_cons]
      rcases List.mem_cons.mp h with h1 | h1
      · omega
      · have := ih h1
        simp only [listMax] at this
        omega

theorem foldl_pyMax_fst (l : List (Nat × Nat)) :
    ∀ p : Nat × Nat,
      (l.foldl (fun best q => if best.1 < q.1 then q else best) p).1 =
        max p.1 (listMax (l.map Prod.fst)) := by
  induction l with
  | nil => intro p; simp [listMax]
  | cons q t ih =>
      intro p
      rw [List.foldl_cons, ih]
      simp only [List.map_cons, listMax, List.foldr_cons]
      by_cases h : p.1 < q.1
      · rw [if_pos h]; omega
      · rw [if_neg h]; omega

theorem condense_turn_count (log : List Char) :
    (condense log).turn_count = listMax ((turnRanges log).map Prod.fst) := by
  have hrfl : (condense log).turn_count =
      (match pyMaxByFst (turnRanges log) with
       | some p => p.1
       | none => 0) := rfl
  rw [hrfl]
  cases h : turnRanges log with
  | nil => simp [pyMaxByFst, listMax]
  | cons p t =>
      simp only [pyMaxByFst]
      rw [foldl_pyMax_fst]
      simp only [List.map_cons, listMax, List.foldr_cons]

theorem attachEnds_map_back (len : Nat) :
    ∀ l : List (Nat × Nat),
      (attachEnds len l).map (fun sp => (sp.1, sp.2.1)) = l := by
  intro l
  induction l with
  | nil => rfl
  | cons p t ih =>
      cases t with
      | nil => obtain ⟨n, s⟩ := p; rfl
      | cons q r =>
          obtain ⟨n, s⟩ := p
          obtain ⟨m, s2⟩ := q
          simpa [attachEnds] using ih

theorem attachEnds_eq_zip (len : Nat) :
    ∀ l : List (Nat × Nat),
      attachEnds len l =
        (l.zip ((l.map Prod.snd).drop 1 ++ [len])).map
          (fun pr => (pr.1.1, pr.1.2, pr.2)) := by
  intro l
  induction l with
  | nil => rfl
  | cons p t ih =>
      cases t with
      | nil => obtain ⟨n, s⟩ := p; rfl
      | cons q r =>
          obtain ⟨n, s⟩ := p
          obtain ⟨m, s2⟩ := q
          simpa [attachEnds] using ih

theorem turnRangesAux_offset_le :
    ∀ (fuel : Nat) (st : Bool) (off : Nat) (cs : List Char) (p : Nat × Nat),
      p ∈ turnRangesAux fuel st off cs → off ≤ p.2 := by
  intro fuel
  induction fuel with
  | zero => intro st off cs p h; simp [turnRangesAux] at h
  | succ f ih =>
      intro st off cs p h
      cases cs with
      | nil => simp [turnRangesAux] at h
      | cons c rest =>
          by_cases hst : st
          · simp only [turnRangesAux, hst, if_pos] at h
            cases hm : matchTurnAt (c :: rest) with
            | some nr =>
                rw [hm] at h
                rcases List.mem_cons.mp h with h1 | h1
                · subst h1; exact Nat.le_refl _
                · have := ih false _ _ p h1
                  omega
            | none =>
                rw [hm] at h
                have := ih (c = '\n') _ _ p h
                omega
          · simp only [turnRangesAux, hst, if_neg, Bool.false_eq_true] at h
            have := ih (c = '\n') _ _ p h
            omega

theorem turnRangesAux_head_le :
    ∀ (fuel : Nat) (st : Bool) (off : Nat) (cs : List Char)
      (q : Nat × Nat) (rest : List (Nat × Nat)),
      turnRangesAux fuel st off cs = q :: rest →
      ∀ p ∈ turnRangesAux fuel st off cs, q.2 ≤ p.2 := by
  intro fuel
  induction fuel with
  | zero => intro st off cs q rest h; simp [turnRangesAux] at h
  | succ f ih =>
      intro st off cs q rest h p hp
      cases cs with
      | nil => simp [turnRangesAux] at h
      | cons c cs' =>
          by_cases hst : st
          · simp only [turnRangesAux, hst, if_pos] at h hp
            cases hm : matchTurnAt (c :: cs') with
            | some nr =>
                rw [hm] at h hp
                have hq : q = (nr.1, off) := by
                  cases h; rfl
                rcases List.mem_cons.mp hp with h1 | h1
                · subst h1; rw [hq]
                · have := turnRangesAux_offset_le f false _ _ p h1
                  rw [hq]
                  simpa using Nat.le_trans (Nat.le_add_right off _) this
            | none =>
                rw [hm] at h hp
                exact ih (c = '\n') (off + 1) cs' q rest h p hp
          · simp only [turnRangesAux, hst, if_neg, Bool.false_eq_true] at h hp
            exact ih (c = '\n') (off + 1) cs' q rest h p hp

theorem toLower_of_isPyDigit (c : Char) (h : isPyDigit c = true) : c.toLower = c := by
  simp only [isPyDigit, Bool.and_eq_true, decide_eq_true_eq] at h
  obtain ⟨h1, h2⟩ := h
  have v2 : c.val.toNat ≤ 57 := by
    simp only [Char.le_def] at h2
    exact UInt32.le_def.mp h2
  unfold Char.toLower
  rw [if_neg]
  simp only [Char.toNat]
  omega

theorem isPyDigit_toLower_ne (c : Char) (h : isPyDigit c = true) :
    c.toLower ≠ 'a' ∧ c.toLower ≠ 'c' := by
  rw [toLower_of_isPyDigit c h]
  constructor
  · intro e; rw [e] at h; simp [isPyDigit] at h
  · intro e; rw [e] at h; simp [isPyDigit] at h

theorem takeWhile_eq_cons {α : Type} {p : α → Bool} {l : List α} {d : α} {ds : List α}
    (h : l.takeWhile p = d :: ds) : (∃ t, l = d :: t) ∧ p d = true := by
  cases l with
  | nil => simp at h
  | cons a t =>
      rw [List.takeWhile_cons] at h
      by_cases hp : p a
      · simp only [hp, if_pos] at h
        have ha : a = d := (List.cons_eq_cons.mp h).1
        subst ha
        exact ⟨⟨t, rfl⟩, hp⟩
      · simp [hp] at h

theorem drawOne_none_of_drawNum (cs : List Char)
    (h : (matchDrawNumAt cs).isSome = true) : matchDrawOneAt cs = none := by
  cases hh : drawHeadAt cs with
  | none =>
      unfold matchDrawNumAt at h
      rw [hh] at h
      simp at h
  | some r2 =>
      unfold matchDrawNumAt at h
      rw [hh] at h
      dsimp only at h
      cases hd : r2.takeWhile isPyDigit with
      | nil => rw [hd] at h; simp at h
      | cons d ds =>
          obtain ⟨⟨t, ht⟩, hpd⟩ := takeWhile_eq_cons hd
          obtain ⟨hna, hnc⟩ := isPyDigit_toLower_ne d hpd
          unfold matchDrawOneAt
          rw [hh]
          dsimp only
          rw [ht]
          have hla : ('a'.toLower) = 'a' := rfl
          have hlc : ('c'.toLower) = 'c' := rfl
          simp [litCIAt, hla, hlc, hna, hnc]

end LogParser

namespace LogParser

/-- The classifier computes the ordered first-match chain: the high-CMC
block of `_classify_line` collapses to the single rule `ruleHighCmc`. -/
theorem classifyLine_eq_classifyRules (line : List Char) :
    classifyLine line = classifyRules line := by
  unfold classifyLine classifyRules classifyKeep classifyRest ruleHighCmc
  by_cases hig : shouldIgnore line
  · simp [hig]
  · by_cases hlife : rSearch patLifeChange line
    · simp [hig, hlife]
    · by_cases hS : rSearch patSpellCastHighCmc line
      · simp [hig, hlife, hS]
      · by_cases hC : rSearch patCastParen line
        · by_cases hP : parenGe5 line <;> simp [hig, hlife, hS, hC, hP]
        · simp [hig, hlife, hS, hC]

/-- Claim C8: `condense` applied to the empty string returns a summary with
`kept_events` the empty list, `mana_per_turn` and `cards_drawn_per_turn`
the empty mapping, and `turn_count` equal to 0. -/
theorem condense_empty_all_empty :
    (condense "".data).kept_events = [] ∧
    (condense "".data).mana_per_turn = [] ∧
    (condense "".data).cards_drawn_per_turn = [] ∧
    (condense "".data).turn_count = 0 :=
  ⟨rfl, rfl, rfl, rfl⟩

/-- Claim C1: the line classifier equals a first-match evaluation of the
rules in the fixed priority order (noise filter, life_change,
spell_cast_high_cmc, zone_change_gy_to_bf, win_condition, generic
spell_cast); every produced kind is one of the five enumerated values; and
no line ever produces more than one KeptEvent (at most one event per
transcript line). -/
theorem classify_first_match_of_five :
    ∀ (line log : List Char),
      classifyLine line = classifyRules line ∧
      (∀ k, classifyLine line = some k →
        k ∈ [EventKind.life_change, EventKind.spell_cast_high_cmc,
             EventKind.zone_change_gy_to_bf, EventKind.win_condition,
             EventKind.spell_cast]) ∧
      (condense log).kept_events.length ≤ (splitLines log).length := by
  intro line log
  refine ⟨classifyLine_eq_classifyRules line, ?_, ?_⟩
  · intro k _; cases k <;> simp
  · have hk : (condense log).kept_events = (splitLines log).filterMap (fun l =>
        match classifyLine l with
        | some k => some (⟨k, (pyStrip l).take 200⟩ : KeptEvent)
        | none => none) := rfl
    rw [hk]
    exact List.length_filterMap_le _ _

/-- Witness for C1 at the line `38 life` (and the empty transcript). -/
theorem classify_first_match_of_five_witness :
    classifyLine "38 life".data = classifyRules "38 life".data ∧
    EventKind.life_change ∈ [EventKind.life_change, EventKind.spell_cast_high_cmc,
             EventKind.zone_change_gy_to_bf, EventKind.win_condition,
             EventKind.spell_cast] ∧
    (condense "".data).kept_events.length ≤ (splitLines "".data).length := by
  have h := classify_first_match_of_five "38 life".data "".data
  exact ⟨h.1, h.2.1 EventKind.life_change (by decide), h.2.2⟩

/-- Claim C2: the reported turn count is the maximum turn number among the
turn markers (0 when there are none), and it depends only on that maximum,
not on how many markers exist. -/
theorem turn_count_max_of_markers :
    ∀ log : List Char,
      (condense log).turn_count = listMax ((turnRanges log).map Prod.fst) ∧
      (turnRanges log = [] → (condense log).turn_count = 0) ∧
      (∀ log₂ : List Char,
        listMax ((turnRanges log).map Prod.fst) =
          listMax ((turnRanges log₂).map Prod.fst) →
        (condense log).turn_count = (condense log₂).turn_count) := by
  intro log
  refine ⟨condense_turn_count log, ?_, ?_⟩
  · intro h; rw [condense_turn_count, h]; rfl
  · intro log₂ h; rw [condense_turn_count, condense_turn_count, h]

/-- Witness for C2: a transcript with no markers has turn count 0, and two
transcripts with different marker counts but the same maximum have the same
turn count. -/
theorem turn_count_max_of_markers_witness :
    (condense "no markers".data).turn_count = 0 ∧
    (condense "Turn 2\nTurn 7".data).turn_count =
      (condense "Turn 7\nTurn 7\nTurn 3".data).turn_count := by
  have h0 := turn_count_max_of_markers "no markers".data
  have h1 := turn_count_max_of_markers "Turn 2\nTurn 7".data
  exact ⟨h0.2.1 (by decide), h1.2.2 "Turn 7\nTurn 7\nTurn 3".data (by decide)⟩

/-- Claim C9: every kept event's text is the originating line's
whitespace-trimmed text truncated to 200 characters; in particular it never
exceeds 200 characters. -/
theorem kept_event_truncation :
    ∀ log : List Char,
      (∀ line ∈ splitLines log, ∀ k, classifyLine line = some k →
        (⟨k, (pyStrip line).take 200⟩ : KeptEvent) ∈ (condense log).kept_events) ∧
      (∀ ev ∈ (condense log).kept_events,
        ev.line.length ≤ 200 ∧
        ∃ line ∈ splitLines log,
          classifyLine line = some ev.type ∧ ev.line = (pyStrip line).take 200) := by
  intro log
  have hk : (condense log).kept_events = (splitLines log).filterMap (fun l =>
      match classifyLine l with
      | some k => some (⟨k, (pyStrip l).take 200⟩ : KeptEvent)
      | none => none) := rfl
  constructor
  · intro line hline k hcl
    rw [hk]
    refine List.mem_filterMap.mpr ⟨line, hline, ?_⟩
    rw [hcl]
  · intro ev hmem
    rw [hk] at hmem
    rcases List.mem_filterMap.mp hmem with ⟨line, hline, hf⟩
    cases hcl : classifyLine line with
    | none => rw [hcl] at hf; simp at hf
    | some k =>
        rw [hcl] at hf
        simp only [Option.some.injEq] at hf
        refine ⟨?_, line, hline, ?_, ?_⟩
        · rw [← hf]
          simp [List.length_take]
        · rw [← hf, hcl]
        · rw [← hf]

/-- Witness for C9 at the transcript `gains 2 life`. -/
theorem kept_event_truncation_witness :
    (⟨EventKind.life_change, (pyStrip "gains 2 life".data).take 200⟩ : KeptEvent) ∈
      (condense "gains 2 life".data).kept_events ∧
    ((⟨EventKind.life_change, "gains 2 life".data⟩ : KeptEvent).line.length ≤ 200 ∧
      ∃ line ∈ splitLines "gains 2 life".data,
        classifyLine line =
            some (⟨EventKind.life_change, "gains 2 life".data⟩ : KeptEvent).type ∧
        (⟨EventKind.life_change, "gains 2 life".data⟩ : KeptEvent).line =
          (pyStrip line).take 200) := by
  have h := kept_event_truncation "gains 2 life".data
  exact ⟨h.1 "gains 2 life".data (by decide) EventKind.life_change (by decide),
    h.2 _ (by decide)⟩

end LogParser

namespace LogParser

/-- Claim C3: a line that the noise filter would ignore as a draw-step line
(the earlier priority and untap patterns do not match, the draw-step
pattern does) but that indicates an above-normal draw is not ignored, and
the classifier evaluates the remaining rules 2-6 on it. -/
theorem draw_step_extra_draw_not_ignored :
    ∀ line : List Char,
      rSearch patPassesPriority (pyStrip line) = false →
      rSearch patUntapStep (pyStrip line) = false →
      rSearch patDrawStep (pyStrip line) = true →
      rSearch patExtraDraw (pyStrip line) = true →
      shouldIgnore line = false ∧ classifyLine line = classifyKeep line := by
  intro line h1 h2 h3 h4
  have hne : (pyStrip line).isEmpty = false := by
    cases hs : pyStrip line with
    | nil =>
        rw [hs] at h3
        exact absurd h3 (by decide)
    | cons a t => simp
  have hig : shouldIgnore line = false := by
    unfold shouldIgnore
    simp [hne, h1, h2, h3, h4]
  refine ⟨hig, ?_⟩
  rw [classifyLine_eq_classifyRules]
  unfold classifyRules
  simp [hig]

/-- Witness for C3 at the line `Draw step: Player A draws 2 cards.`. -/
theorem draw_step_extra_draw_not_ignored_witness :
    shouldIgnore "Draw step: Player A draws 2 cards.".data = false ∧
    classifyLine "Draw step: Player A draws 2 cards.".data =
      classifyKeep "Draw step: Player A draws 2 cards.".data :=
  draw_step_extra_draw_not_ignored "Draw step: Player A draws 2 cards.".data
    (by decide) (by decide) (by decide) (by decide)

/-- Counterexample to claim C4 as stated: the line `CMC 7` is not ignored
and is not a life change, the claim's condition is false at it (it
references no casting), yet the classifier returns spell_cast_high_cmc. -/
theorem high_cmc_without_cast_counterexample :
    shouldIgnore "CMC 7".data = false ∧
    rSearch patLifeChange "CMC 7".data = false ∧
    specC4HighCmc "CMC 7".data = false ∧
    classifyLine "CMC 7".data = some EventKind.spell_cast_high_cmc := by
  decide

/-- Claim C4 amended: for every line neither ignored nor matched as
life_change, the classifier returns spell_cast_high_cmc exactly when
SPELL_CAST_HIGH_CMC matches (a cast verb followed by a CMC annotation or a
parenthesized number whose digits are 5-9 or at least two digits, or a
bare CMC annotation, cast not required), or the inline cast-paren pattern
matches and the first parenthesized number of the line is at least 5. -/
theorem high_cmc_rule_characterization :
    ∀ line : List Char,
      shouldIgnore line = false →
      rSearch patLifeChange line = false →
      (classifyLine line = some EventKind.spell_cast_high_cmc ↔
        ruleHighCmc line = true) := by
  intro line hig hlife
  rw [classifyLine_eq_classifyRules]
  unfold classifyRules classifyKeep
  by_cases hR : ruleHighCmc line
  · simp [hig, hlife, hR]
  · by_cases hz : rSearch patZoneChange line <;>
      by_cases hw : rSearch patWinCondition line <;>
      by_cases hcf : searchCastFallback line <;>
      simp [hig, hlife, hR, hz, hw, hcf]

/-- Witness for the amended C4 at `Player A casts Eldrazi Titan (8)`. -/
theorem high_cmc_rule_characterization_witness :
    classifyLine "Player A casts Eldrazi Titan (8)".data =
        some EventKind.spell_cast_high_cmc ↔
      ruleHighCmc "Player A casts Eldrazi Titan (8)".data = true :=
  high_cmc_rule_characterization "Player A casts Eldrazi Titan (8)".data
    (by decide) (by decide)

/-- Counterexample to claim C5 as stated: the line `life 38` has the token
life adjacent to a number (number after), is not ignored, yet the
classifier returns no event at all. -/
theorem life_number_after_counterexample :
    shouldIgnore "life 38".data = false ∧
    specC5LifeNumAdjacent "life 38".data = true ∧
    classifyLine "life 38".data = none := by
  decide

/-- Claim C5 amended: for every line not ignored by the noise filter, the
classifier returns life_change exactly when LIFE_CHANGE matches: a
life-total-change phrase (life, optionally total, then change/loss/gain/to),
an explicit loses/gains N life, or a number immediately before the token
life (as in `38 life`); a number after the token life does not by itself
match. -/
theorem life_change_characterization :
    ∀ line : List Char,
      shouldIgnore line = false →
      (classifyLine line = some EventKind.life_change ↔
        rSearch patLifeChange line = true) := by
  intro line hig
  rw [classifyLine_eq_classifyRules]
  unfold classifyRules classifyKeep
  by_cases hlife : rSearch patLifeChange line
  · simp [hig, hlife]
  · by_cases hR : ruleHighCmc line <;>
      by_cases hz : rSearch patZoneChange line <;>
      by_cases hw : rSearch patWinCondition line <;>
      by_cases hcf : searchCastFallback line <;>
      simp [hig, hlife, hR, hz, hw, hcf]

/-- Witness for the amended C5 at `38 life`. -/
theorem life_change_characterization_witness :
    classifyLine "38 life".data = some EventKind.life_change ↔
      rSearch patLifeChange "38 life".data = true :=
  life_change_characterization "38 life".data (by decide)

end LogParser

namespace LogParser

theorem spansOf_map_fst (log : List Char) :
    (spansOf log).map Prod.fst = (turnRanges log).map Prod.fst := by
  have h := attachEnds_map_back log.length (turnRanges log)
  conv_rhs => rw [← h]
  rw [List.map_map]
  rfl

theorem mem_map_fst_foldl_dinsert {α β : Type} (key : β → Nat) (f : β → α) :
    ∀ (l : List β) (init : List (Nat × α)) (k : Nat),
      (k ∈ (l.foldl (fun acc b => dinsert (key b) (f b) acc) init).map Prod.fst ↔
        k ∈ l.map key ∨ k ∈ init.map Prod.fst) := by
  intro l
  induction l with
  | nil => intro init k; simp
  | cons b t ih =>
      intro init k
      rw [List.foldl_cons, ih, map_fst_dinsert]
      by_cases hmem : key b ∈ init.map Prod.fst
      · rw [if_pos hmem]
        simp only [List.map_cons, List.mem_cons]
        by_cases hk : k = key b
        · subst hk; simp [hmem]
        · simp [hk]
      · rw [if_neg hmem]
        simp only [List.map_cons, List.mem_cons, List.mem_append,
          List.mem_singleton]
        tauto

/-- Claim C6: each aggregator's value for a turn is computed from exactly
the slice between that span's start and the next span's start (transcript
length for the last span, stated by the zip equation); on duplicate turn
numbers the last span in document order wins in both mappings (the lookup
equals the value of the last span carrying that turn number); and an empty
marker list yields empty mappings. -/
theorem aggregators_span_local_last_wins :
    ∀ (log : List Char) (t : Nat),
      spansOf log =
        ((turnRanges log).zip (((turnRanges log).map Prod.snd).drop 1 ++
            [log.length])).map (fun pr => (pr.1.1, pr.1.2, pr.2)) ∧
      dlookup t (manaPerTurn log) =
        Option.map
          (fun sp => (⟨manaChunkCount (slice log sp.2.1 sp.2.2)⟩ : ManaInfo))
          ((spansOf log).reverse.find? (fun sp => sp.1 == t)) ∧
      dlookup t (cardsDrawnPerTurn log) =
        Option.map (fun sp => cardsChunkCount (slice log sp.2.1 sp.2.2))
          ((spansOf log).reverse.find? (fun sp => sp.1 == t)) ∧
      (turnRanges log = [] →
        manaPerTurn log = [] ∧ cardsDrawnPerTurn log = []) := by
  intro log t
  refine ⟨attachEnds_eq_zip _ _, ?_, ?_, ?_⟩
  · have h := dlookup_foldl_dinsert (fun (sp : Nat × Nat × Nat) => sp.1)
      (fun sp => (⟨manaChunkCount (slice log sp.2.1 sp.2.2)⟩ : ManaInfo))
      (spansOf log) [] t
    refine h.trans ?_
    cases hf : (spansOf log).reverse.find? (fun sp => sp.1 == t) <;>
      simp [hf, dlookup]
  · have h := dlookup_foldl_dinsert (fun (sp : Nat × Nat × Nat) => sp.1)
      (fun sp => cardsChunkCount (slice log sp.2.1 sp.2.2))
      (spansOf log) [] t
    refine h.trans ?_
    cases hf : (spansOf log).reverse.find? (fun sp => sp.1 == t) <;>
      simp [hf, dlookup]
  · intro h
    unfold manaPerTurn cardsDrawnPerTurn spansOf
    rw [h]
    exact ⟨rfl, rfl⟩

/-- Witness for C6 at the markerless transcript `hello` (and turn 1). -/
theorem aggregators_span_local_last_wins_witness :
    spansOf "hello".data =
      ((turnRanges "hello".data).zip
          (((turnRanges "hello".data).map Prod.snd).drop 1 ++
            ["hello".data.length])).map (fun pr => (pr.1.1, pr.1.2, pr.2)) ∧
    dlookup 1 (manaPerTurn "hello".data) =
      Option.map
        (fun sp => (⟨manaChunkCount (slice "hello".data sp.2.1 sp.2.2)⟩ : ManaInfo))
        ((spansOf "hello".data).reverse.find? (fun sp => sp.1 == 1)) ∧
    (manaPerTurn "hello".data = [] ∧ cardsDrawnPerTurn "hello".data = []) := by
  have h := aggregators_span_local_last_wins "hello".data 1
  exact ⟨h.1, h.2.1, h.2.2.2 (by decide)⟩

/-- Claim C7: a turn's draw count is the sum over the span's slice of the
numeric draw amounts plus one per singular draw occurrence, and a position
where the numeric draw pattern matches is never also counted by the
singular pattern (no double-counting). -/
theorem cards_value_sum_no_double_count :
    ∀ (log : List Char) (t : Nat),
      (dlookup t (cardsDrawnPerTurn log) =
        Option.map
          (fun sp => drawNumSum (slice log sp.2.1 sp.2.2) +
              drawOneCount (slice log sp.2.1 sp.2.2))
          ((spansOf log).reverse.find? (fun sp => sp.1 == t))) ∧
      (∀ cs : List Char,
        (matchDrawNumAt cs).isSome = true → matchDrawOneAt cs = none) := by
  intro log t
  constructor
  · have h := dlookup_foldl_dinsert (fun (sp : Nat × Nat × Nat) => sp.1)
      (fun sp => cardsChunkCount (slice log sp.2.1 sp.2.2))
      (spansOf log) [] t
    refine h.trans ?_
    cases hf : (spansOf log).reverse.find? (fun sp => sp.1 == t) <;>
      simp [hf, dlookup, cardsChunkCount]
  · intro cs h
    exact drawOne_none_of_drawNum cs h

/-- Witness for C7 at `Turn 1 draws 3 cards` (and the numeric-match site
`draws 3 cards`). -/
theorem cards_value_sum_no_double_count_witness :
    (dlookup 1 (cardsDrawnPerTurn "Turn 1 draws 3 cards".data) =
      Option.map
        (fun sp => drawNumSum (slice "Turn 1 draws 3 cards".data sp.2.1 sp.2.2) +
            drawOneCount (slice "Turn 1 draws 3 cards".data sp.2.1 sp.2.2))
        ((spansOf "Turn 1 draws 3 cards".data).reverse.find?
          (fun sp => sp.1 == 1))) ∧
    matchDrawOneAt "draws 3 cards".data = none := by
  have h := cards_value_sum_no_double_count "Turn 1 draws 3 cards".data 1
  exact ⟨h.1, h.2 "draws 3 cards".data (by decide)⟩

/-- Claim C10: the two per-turn mappings have identical key sequences, their
keys are exactly the turn numbers reported by the turn indexer, every key
is at most the reported turn count, every span starts at or after the first
marker's offset (text before the first marker contributes to no mapping),
and a line before the first marker can still yield a kept event. -/
theorem key_sets_and_prefix_locality :
    (∀ (log : List Char) (t : Nat),
      (manaPerTurn log).map Prod.fst = (cardsDrawnPerTurn log).map Prod.fst ∧
      (t ∈ (manaPerTurn log).map Prod.fst ↔
        t ∈ (turnRanges log).map Prod.fst) ∧
      (t ∈ (manaPerTurn log).map Prod.fst →
        t ≤ (condense log).turn_count) ∧
      (∀ (q : Nat × Nat) (rest : List (Nat × Nat)) (sp : Nat × Nat × Nat),
        turnRanges log = q :: rest → sp ∈ spansOf log → q.2 ≤ sp.2.1)) ∧
    (condense "gains 3 life\nTurn 1 adds W mana".data).kept_events =
      [⟨EventKind.life_change, "gains 3 life".data⟩] := by
  constructor
  · intro log t
    have hkeys : ∀ t' : Nat, t' ∈ (manaPerTurn log).map Prod.fst ↔
        t' ∈ (turnRanges log).map Prod.fst := by
      intro t'
      have h := mem_map_fst_foldl_dinsert (fun (sp : Nat × Nat × Nat) => sp.1)
        (fun sp => (⟨manaChunkCount (slice log sp.2.1 sp.2.2)⟩ : ManaInfo))
        (spansOf log) [] t'
      have h2 : (spansOf log).map (fun sp => sp.1) =
          (turnRanges log).map Prod.fst := spansOf_map_fst log
      rw [h2] at h
      simpa using h
    refine ⟨?_, hkeys t, ?_, ?_⟩
    · exact map_fst_foldl_dinsert _ _ _ (spansOf log) [] [] rfl
    · intro hm
      rw [condense_turn_count]
      exact le_listMax _ _ ((hkeys t).mp hm)
    · intro q rest sp heq hsp
      have heq' : turnRangesAux (log.length + 1) true 0 log = q :: rest := heq
      have hmem : (sp.1, sp.2.1) ∈ turnRanges log := by
        rw [← attachEnds_map_back log.length (turnRanges log)]
        exact List.mem_map_of_mem _ hsp
      have hmem' : (sp.1, sp.2.1) ∈ turnRangesAux (log.length + 1) true 0 log :=
        hmem
      exact turnRangesAux_head_le (log.length + 1) true 0 log q rest heq'
        (sp.1, sp.2.1) hmem'
  · decide

/-- Witness for C10 at `x`, a marker line for turn 4, then one for turn 2. -/
theorem key_sets_and_prefix_locality_witness :
    4 ∈ (manaPerTurn "x\nTurn 4 stuff\nTurn 2".data).map Prod.fst ∧
    4 ≤ (condense "x\nTurn 4 stuff\nTurn 2".data).turn_count ∧
    ((4, 2) : Nat × Nat).2 ≤ (((4, 2, 15) : Nat × Nat × Nat)).2.1 := by
  have h := key_sets_and_prefix_locality
  have h4 := h.1 "x\nTurn 4 stuff\nTurn 2".data 4
  have a := (h4.2.1).mpr (by decide)
  refine ⟨a, h4.2.2.1 a, ?_⟩
  exact h4.2.2.2 (4, 2) [(2, 15)] (4, 2, 15) (by decide) (by decide)

end LogParser
